import Mathlib

/-!
Shallow embedding of the `pyply` repository's binary PLY reader.

The embedding follows the two Python source files:
* `src/ply.py`       — namespace `Ply` (classes `ReaderIterator`, `PlyElement`,
  `PlyProperty`, `PlyReader`);
* `src/ply2coll.py`  — namespace `Ply2coll` (the near-identical second copy of
  the reader classes).

Bytes are modelled as `Nat` (Python byte-string items), buffers as `List Nat`,
and the Python `struct` module's unpacking of one fixed-width scalar as
arithmetic on those byte lists.  Fallible Python code (exceptions) is modelled
with `Option` (for errors raised while reading: `struct.error`) and
`Except String` (for errors raised while constructing readers or parsing the
header: `KeyError`, `IndexError`, `RuntimeError`, `NotImplementedError`,
`ValueError`), the string naming the Python exception raised.
-/

namespace PlyModel

/-- A byte of a Python byte-string. -/
abbrev Byte := Nat

/-- A value produced by `struct.unpack`, or a Python list of such values.
Integer scalars are decoded to `Int`; for the IEEE types (`float` / `double`)
the decoder is faithful up to the IEEE bit-pattern: `.float w bits` carries the
byte width `w` and the `8*w`-bit pattern read from the stream (the bijective
IEEE interpretation of the pattern as a real is not modelled). -/
inductive PValue where
  | int : Int → PValue
  | float : Nat → Nat → PValue
  | list : List PValue → PValue

/-- Little-endian value of a byte list: first byte is least significant.
This is the `struct` module's decode rule for the `<` byte order. -/
def natFromLE : List Byte → Nat
  | [] => 0
  | b :: bs => b + 256 * natFromLE bs

/-- `struct.calcsize` for one format character (`B b H h I i f d`), the byte
width of the corresponding scalar type. -/
def calcsize (c : String) : Nat :=
  if c = "B" ∨ c = "b" then 1
  else if c = "H" ∨ c = "h" then 2
  else if c = "I" ∨ c = "i" ∨ c = "f" then 4
  else 8

/-- Two's-complement reinterpretation of an unsigned `w`-byte value, the
`struct` decode rule for the signed format characters. -/
def toSigned (w : Nat) (n : Nat) : Int :=
  if n < 2 ^ (8 * w - 1) then (n : Int) else (n : Int) - 2 ^ (8 * w)

/-- `struct.unpack` of a single scalar from a chunk of exactly
`calcsize c` bytes, under byte order `e` (`"<"` little, `">"` big). -/
def unpackOne (e c : String) (chunk : List Byte) : PValue :=
  let raw := if e = "<" then natFromLE chunk else natFromLE chunk.reverse
  if c = "B" ∨ c = "H" ∨ c = "I" then .int raw
  else if c = "b" ∨ c = "h" ∨ c = "i" then .int (toSigned (calcsize c) raw)
  else .float (calcsize c) raw

/-- `struct.unpack` of `count` consecutive scalars of format character `c`
(format string `"{e}{count}{c}"`): the chunk is cut into `count` consecutive
`calcsize c`-byte groups, decoded in order with no separators. -/
def unpackMany (e c : String) : Nat → List Byte → List PValue
  | 0, _ => []
  | n + 1, chunk => unpackOne e c (chunk.take (calcsize c)) :: unpackMany e c n (chunk.drop (calcsize c))

/-- Splitting a format specifier on the underscore, Python `file_format.split('_')`. -/
def splitOnChar (sep : Char) : List Char → List (List Char)
  | [] => [[]]
  | c :: cs =>
    match splitOnChar sep cs with
    | [] => [[]]
    | g :: gs => if c = sep then [] :: g :: gs else (c :: g) :: gs

/-- The underscore character, written via its code point. -/
def underscoreChar : Char := Char.ofNat 95

/-- `file_format.split('_')` as a list of strings. -/
def splitUnderscore (s : String) : List String :=
  (splitOnChar underscoreChar s.data).map (fun l => ⟨l⟩)

/-- The space character, written via its code point. -/
def spaceChar : Char := Char.ofNat 32

/-- The full-stop character, written via its code point. -/
def dotChar : Char := Char.ofNat 46

/-- The hyphen-minus character, written via its code point. -/
def minusChar : Char := Char.ofNat 45

/-- Python `l.partition(" ")` restricted to the two components the source
uses (`l[0]` and `l[2]`): the text before the first space and the text after
it; when there is no space the whole string is the first component and the
second is empty. -/
def breakSpace : List Char → List Char × List Char
  | [] => ([], [])
  | c :: cs =>
    if c = spaceChar then ([], cs)
    else
      let (a, b) := breakSpace cs
      (c :: a, b)

/-- `l.partition(" ")` on strings, keeping components 0 and 2. -/
def partition1 (s : String) : String × String :=
  let p := breakSpace s.data
  (⟨p.1⟩, ⟨p.2⟩)

/-- Python `str.split()` grouping: cut at whitespace characters. -/
def splitWS : List Char → List (List Char)
  | [] => [[]]
  | c :: cs =>
    match splitWS cs with
    | [] => [[]]
    | g :: gs => if c.isWhitespace then [] :: g :: gs else (c :: g) :: gs

/-- Python `str.split()` with no arguments: split on whitespace runs,
dropping empty groups. -/
def words (s : String) : List String :=
  ((splitWS s.data).filter (fun l => !l.isEmpty)).map (fun l => ⟨l⟩)

/-- Python `l[:-1]`: the string without its final character (identity on the
empty string). -/
def stripNl (s : String) : String := ⟨s.data.dropLast⟩

/-- The result of the `k`-th `self.f.readline()` call on a file whose
remaining content is the list `fileLines` of newline-terminated lines: past
the end of the file `readline` returns the empty string forever. -/
def readline (fileLines : List String) (k : Nat) : String := (fileLines.drop k).headD ""

/-- One step of the accumulator in Python `int(...)` digit parsing. -/
def digitsValAux : List Char → Nat → Option Nat
  | [], acc => some acc
  | c :: cs, acc => if c.isDigit then digitsValAux cs (acc * 10 + (c.toNat - 48)) else none

/-- Decimal value of a non-empty all-digit character list (`none` models the
`ValueError` that Python `int(...)` raises on anything else). -/
def parseNatDigits (l : List Char) : Option Nat :=
  if l.isEmpty then none else digitsValAux l 0

/-- Modelled from the Python builtin `int(str)` as used on header count
arguments: an optional leading minus sign followed by decimal digits;
`none` models `ValueError`. -/
def parseInt (s : String) : Option Int :=
  match s.data with
  | [] => none
  | c :: cs =>
    if c = minusChar then (parseNatDigits cs).map (fun n => -(n : Int))
    else (parseNatDigits s.data).map (fun n => (n : Int))

/-- Modelled from the Python builtin `float(str)` as used on the header
version argument, restricted to unsigned decimal literals `digits` or
`digits.digits`; the value is represented exactly as a rational (the IEEE
rounding of the decimal to a double is not modelled).  `none` models
`ValueError`. -/
def parseVersion (s : String) : Option ℚ :=
  match splitOnChar dotChar s.data with
  | [ip] => (parseNatDigits ip).map (fun n => mkRat n 1)
  | [ip, fp] => do
    let a ← parseNatDigits ip
    let b ← parseNatDigits fp
    some (mkRat (a * 10 ^ fp.length + b) (10 ^ fp.length))
  | _ => none

/-- A Python list comprehension over a fallible element expression: evaluate
left to right, the first exception aborting the whole comprehension. -/
def mapExcept {α β : Type} (f : α → Except String β) : List α → Except String (List β)
  | [] => .ok []
  | a :: as =>
    match f a with
    | .error msg => .error msg
    | .ok b =>
      match mapExcept f as with
      | .error msg => .error msg
      | .ok bs => .ok (b :: bs)

/-- A reader function in the sense of both source files: takes the byte-string and
an offset, returns a converted item and a new offset, or `none` for a
`struct.error` raised on a short buffer. -/
abbrev Reader := List Byte → Nat → Option (PValue × Nat)

namespace Ply

/-- The `tr` dictionary of `PlyProperty._make_binary_reader` in `src/ply.py`,
mapping endianness names and PLY type names to `struct` format characters.
`none` models a `KeyError` on lookup. -/
def tr (s : String) : Option String :=
  if s = "little" then some "<"
  else if s = "big" then some ">"
  else if s = "uchar" then some "B"
  else if s = "char" then some "b"
  else if s = "ushort" then some "H"
  else if s = "short" then some "h"
  else if s = "uint" then some "I"
  else if s = "int" then some "i"
  else if s = "float" then some "f"
  else if s = "double" then some "d"
  else none

/-- The spec's `width_of`: byte width of a PLY scalar type name (0 for a name
outside the type table, where the source raises `KeyError` instead). -/
def width_of (t : String) : Nat :=
  match tr t with
  | some c => calcsize c
  | none => 0

/-- The fixed-size `reader` closure built by `PlyProperty._make_binary_reader`
(`varsize = False` branch): slice `data[offset : offset+size]`, unpack one
scalar from it, return it with `offset + size`.  `struct.unpack` raises
(`none`) exactly when the slice is shorter than `size`. -/
def scalarReader (e c : String) (data : List Byte) (off : Nat) : Option (PValue × Nat) :=
  let size := calcsize c
  let chunk := (data.drop off).take size
  if chunk.length = size then some (unpackOne e c chunk, off + size) else none

/-- The variable-size `reader` closure built by `PlyProperty._make_binary_reader`
(`varsize = True` branch): format `"{e}{count}{c}"`, size `count * calcsize c`,
unpack `count` scalars from the slice into a Python list.  A negative `count`
makes `struct.calcsize` raise (`none`); a short slice makes `struct.unpack`
raise (`none`). -/
def varsizeReader (e c : String) (data : List Byte) (off : Nat) (count : Int) :
    Option (PValue × Nat) :=
  if count < 0 then none
  else
    let n := count.toNat
    let size := n * calcsize c
    let chunk := (data.drop off).take size
    if chunk.length = size then some (.list (unpackMany e c n chunk), off + size) else none

/-- The `reader` closure built by `PlyProperty._make_binary_list_reader`:
read the count with the scalar reader for the count type, then read that many
items with the variable-size reader for the item type.  A non-integer count
value (an IEEE-typed count) would make Python build a malformed format string
and raise `struct.error` (`none`). -/
def listReader (e sc ic : String) (data : List Byte) (off : Nat) : Option (PValue × Nat) :=
  match scalarReader e sc data off with
  | none => none
  | some (cv, off1) =>
    match cv with
    | .int n => varsizeReader e ic data off1 n
    | _ => none

/-- `PlyProperty._make_binary_reader(dtype, endianness)` at construction time:
both `tr` lookups must succeed, else `KeyError`. -/
def mkBinaryReader (dtype endianness : String) : Except String Reader :=
  match tr endianness, tr dtype with
  | some e, some c => .ok (scalarReader e c)
  | _, _ => .error "KeyError"

/-- `PlyProperty._make_binary_list_reader(stype, dtype, endianness)` at
construction time: builds the count reader and the variable-size item reader,
propagating `KeyError` from the `tr` lookups. -/
def mkBinaryListReader (stype dtype endianness : String) : Except String Reader :=
  match tr endianness, tr stype, tr dtype with
  | some e, some sc, some ic => .ok (listReader e sc ic)
  | _, _, _ => .error "KeyError"

/-- The unimplemented ASCII path and the invalid-specifier fallthrough of
`PlyProperty.make_reader` in `src/ply.py`: on `ascii` the method body first
evaluates `self.is_list()` (`dtype[0]`, an `IndexError` on an empty dtype) and,
on the list branch, `self.dtype[2]` (an `IndexError` on a short dtype), then
calls `_make_ascii_list_reader` / `_make_ascii_reader`, both of which raise
`NotImplementedError`; any other specifier raises `RuntimeError`. -/
def asciiBranch (dtype : List String) (ff0 : String) : Except String Reader :=
  if ff0 = "ascii" then
    match dtype.get? 0 with
    | none => .error "IndexError"
    | some t0 =>
      if t0 = "list" then
        match dtype.get? 2 with
        | none => .error "IndexError"
        | some _ => .error "NotImplementedError"
      else .error "NotImplementedError"
  else .error "RuntimeError: Invalid file format specifier"

/-- `PlyProperty.make_reader(file_format)` of `src/ply.py`: split the format
specifier on underscores; on `binary` with a `little`/`big` second component
build the binary (list) reader from the property's dtype (`self.is_list()`
reads `dtype[0]`, the list branch reads `dtype[1]` and `dtype[2]`); otherwise
fall through to the ASCII / invalid-specifier handling. -/
def makeReader (dtype : List String) (file_format : String) : Except String Reader :=
  let ff := splitUnderscore file_format
  if ff.headD "" = "binary" then
    match ff.get? 1 with
    | none => .error "IndexError"
    | some e1 =>
      if e1 = "little" ∨ e1 = "big" then
        match dtype.get? 0 with
        | none => .error "IndexError"
        | some t0 =>
          if t0 = "list" then
            match dtype.get? 1, dtype.get? 2 with
            | some st, some it => mkBinaryListReader st it e1
            | _, _ => .error "IndexError"
          else mkBinaryReader t0 e1
      else asciiBranch dtype (ff.headD "")
  else asciiBranch dtype (ff.headD "")

/-- `ReaderIterator` consumed to a list (`list(i)` / `Element(*i)` in
`src/ply.py`): apply each reader in turn to the byte-string, threading the
offset from one call to the next, and collect the results; a reader raising
`struct.error` (`none`) aborts the whole iteration. -/
def chain {α : Type} : List (List Byte → Nat → Option (α × Nat)) → List Byte → Nat →
    Option (List α × Nat)
  | [], _, off => some ([], off)
  | r :: rs, data, off =>
    match r data off with
    | none => none
    | some (v, o1) =>
      match chain rs data o1 with
      | none => none
      | some (vs, o2) => some (v :: vs, o2)

/-- `PlyProperty`'s data: a name and the dtype token list from the header
(`[type]` for a scalar, `["list", count_type, item_type]` for a list). -/
structure PlyProp where
  name : String
  dtype : List String
deriving DecidableEq

/-- `PlyElement`'s data: name, declared count (Python `int(...)`, so `Int`),
and the ordered property list. -/
structure PlyElem where
  name : String
  count : Int
  props : List PlyProp
deriving DecidableEq

/-- `PlyReader`'s parsed header: the stored `file_format` string, the stored
`file_format_version` float, and the element schemas in declaration order. -/
structure PlyHeader where
  file_format : String
  file_format_version : ℚ
  elements : List PlyElem
deriving DecidableEq

/-- One decoded element instance: the `namedtuple` built by `read_item`,
modelled as the ordered association of property names to decoded values. -/
abbrev Record := List (String × PValue)

/-- The `read_item` closure of `PlyElement.make_reader`: run the property
readers in declared order over one `ReaderIterator`, pair the results with the
property names (the `namedtuple` fields), return the record and the final
offset of the iterator. -/
def readItem (names : List String) (rs : List Reader) (data : List Byte) (off : Nat) :
    Option (Record × Nat) :=
  (chain rs data off).map (fun vo => (names.zip vo.1, vo.2))

/-- The `reader` closure of `PlyElement.make_reader`: iterate `read_item`
`itertools.repeat(read_item, n)` times (`n = self.count`; a negative count
repeats zero times, as `itertools.repeat` does), threading the offset. -/
def elemReader (names : List String) (rs : List Reader) (count : Int) (data : List Byte)
    (off : Nat) : Option (List Record × Nat) :=
  chain (List.replicate count.toNat (readItem names rs)) data off

/-- `PlyElement.make_reader(file_format)`: build one reader per property (in
declared order), then the element reader; construction-time exceptions from
`PlyProperty.make_reader` propagate. -/
def mkElemReader (e : PlyElem) (ff : String) :
    Except String (List Byte → Nat → Option (List Record × Nat)) :=
  match mapExcept (fun p => makeReader p.dtype ff) e.props with
  | .error msg => .error msg
  | .ok rs => .ok (elemReader (e.props.map PlyProp.name) rs e.count)

/-- `PlyReader.read_data` with the final iterator offset kept: build the
element readers (construction-time exceptions first, before any byte of the
payload is looked at), then chain them over the payload from `off`, pairing the
per-element record lists with the element names (the outer `namedtuple`). -/
def readDoc (h : PlyHeader) (data : List Byte) (off : Nat) :
    Except String (List (String × List Record) × Nat) :=
  match mapExcept (fun e => mkElemReader e h.file_format) h.elements with
  | .error msg => .error msg
  | .ok ers =>
    match chain ers data off with
    | some (res, off2) => .ok ((h.elements.map PlyElem.name).zip res, off2)
    | none => .error "struct.error"

/-- `PlyReader.read_data(...)` as the caller sees it: the decoded document
(offset starts at 0 on the payload and is discarded at the end). -/
def readData (h : PlyHeader) (data : List Byte) : Except String (List (String × List Record)) :=
  (readDoc h data 0).map Prod.fst

/-- `PlyReader._read_header_lines` run over a finite list of remaining
readline results: scan for the first line equal to `"end_header"` after
stripping its final character, yielding the earlier lines stripped, together
with how many lines were consumed (terminator included).  `none` models the
case in which no such line exists in the file: the `while True:` loop then
never returns (at end of file `readline` yields `""` forever, which never
matches the terminator). -/
def headerLinesScan : List String → Option (List String × Nat)
  | [] => none
  | l :: ls =>
    if stripNl l = "end_header" then some ([], 1)
    else
      match headerLinesScan ls with
      | some (ys, k) => some (stripNl l :: ys, k + 1)
      | none => none

/-- The property-popping inner `while` loop of
`PlyReader._parse_header_elements`: take the maximal leading run of lines with
keyword `property`, keeping their argument lists, and return it with the rest. -/
def spanProps : List (String × List String) → List (List String) × List (String × List String)
  | [] => ([], [])
  | l :: ls =>
    if l.1 == "property" then
      let pr := spanProps ls
      (l.2 :: pr.1, pr.2)
    else ([], l :: ls)

/-- `PlyProperty(p_line[-1], p_line[:-1])` for each popped property line:
the final token is the name, the preceding tokens the dtype; an empty
argument list makes `p_line[-1]` raise `IndexError`. -/
def buildProps : List (List String) → Except String (List PlyProp)
  | [] => .ok []
  | args :: rest =>
    match args.getLast? with
    | none => .error "IndexError"
    | some nm =>
      match buildProps rest with
      | .ok ps => .ok (PlyProp.mk nm args.dropLast :: ps)
      | .error msg => .error msg

/-- `PlyReader._parse_header_elements`, fuelled (the fuel only bounds the
recursion over the shrinking line list; `parseElements` supplies enough).
Faithfully keeps the source's validation condition
`line[0] != "element" and len(line[1]) == 2`: the error is raised only when
the keyword is not `element` AND the argument count is exactly 2. -/
def parseElementsFuel : Nat → List (String × List String) → Except String (List PlyElem)
  | 0, [] => .ok []
  | 0, _ :: _ => .error "fuel"
  | _ + 1, [] => .ok []
  | f + 1, (kw, args) :: rest =>
    if kw ≠ "element" ∧ args.length = 2 then
      .error "RuntimeError: Invalid .ply file: expected keyword element with two arguments."
    else
      let pr := spanProps rest
      match buildProps pr.1 with
      | .error msg => .error msg
      | .ok ptys =>
        match args.get? 0, args.get? 1 with
        | some nm, some cstr =>
          match parseInt cstr with
          | some c =>
            match parseElementsFuel f pr.2 with
            | .ok es => .ok (PlyElem.mk nm c ptys :: es)
            | .error msg => .error msg
          | none => .error "ValueError"
        | _, _ => .error "IndexError"

/-- `[e for e in self._parse_header_elements(other_lines)]`. -/
def parseElements (ls : List (String × List String)) : Except String (List PlyElem) :=
  parseElementsFuel ls.length ls

/-- The body of `PlyReader.read_header` after the header lines have been
collected: partition each line at the first space, drop `comment` lines, split
the remainders into words, pop the `format` line (keyword must be `format`,
`file_format` is its first argument as-is, the version is `float` of its
second argument), and parse the remaining lines into elements. -/
def parseHeaderLines (allLines : List String) : Except String PlyHeader :=
  let parted := allLines.map partition1
  let others := (parted.filter (fun l => l.1 != "comment")).map (fun l => (l.1, words l.2))
  match others with
  | [] => .error "IndexError"
  | fmtLine :: restLines =>
    if fmtLine.1 ≠ "format" then
      .error "RuntimeError: The first non-comment line should specify a format."
    else
      match fmtLine.2.get? 0 with
      | none => .error "IndexError"
      | some fname =>
        match fmtLine.2.get? 1 with
        | none => .error "IndexError"
        | some vstr =>
          match parseVersion vstr with
          | none => .error "ValueError"
          | some v =>
            match parseElements restLines with
            | .ok es => .ok ⟨fname, v, es⟩
            | .error msg => .error msg

/-- `PlyReader.read_header` over the file's remaining readline results: the
first line must be exactly `"ply\n"`; then the header lines are read up to the
terminator (the outer `none` models the non-terminating read loop of a file
with no terminator line) and parsed. -/
def readHeader (fileLines : List String) : Option (Except String PlyHeader) :=
  if readline fileLines 0 ≠ "ply\n" then
    some (.error "RuntimeError: This is not a valid .ply file.")
  else
    match headerLinesScan (fileLines.drop 1) with
    | none => none
    | some (allLines, _) => some (parseHeaderLines allLines)

end Ply

namespace Ply2coll

/-- The `tr` dictionary of `PlyProperty.make_binary_reader` in
`src/ply2coll.py` (textually identical to the one in `src/ply.py`). -/
def tr (s : String) : Option String :=
  if s = "little" then some "<"
  else if s = "big" then some ">"
  else if s = "uchar" then some "B"
  else if s = "char" then some "b"
  else if s = "ushort" then some "H"
  else if s = "short" then some "h"
  else if s = "uint" then some "I"
  else if s = "int" then some "i"
  else if s = "float" then some "f"
  else if s = "double" then some "d"
  else none

/-- The fixed-size `reader` closure of `PlyProperty.make_binary_reader` in
`src/ply2coll.py` (textually identical to the one in `src/ply.py`). -/
def scalarReader (e c : String) (data : List Byte) (off : Nat) : Option (PValue × Nat) :=
  let size := calcsize c
  let chunk := (data.drop off).take size
  if chunk.length = size then some (unpackOne e c chunk, off + size) else none

/-- The variable-size `reader` closure of `PlyProperty.make_binary_reader` in
`src/ply2coll.py` (textually identical to the one in `src/ply.py`). -/
def varsizeReader (e c : String) (data : List Byte) (off : Nat) (count : Int) :
    Option (PValue × Nat) :=
  if count < 0 then none
  else
    let n := count.toNat
    let size := n * calcsize c
    let chunk := (data.drop off).take size
    if chunk.length = size then some (.list (unpackMany e c n chunk), off + size) else none

/-- The `reader` closure of `PlyProperty.make_binary_list_reader` in
`src/ply2coll.py` (textually identical to the one in `src/ply.py`). -/
def listReader (e sc ic : String) (data : List Byte) (off : Nat) : Option (PValue × Nat) :=
  match scalarReader e sc data off with
  | none => none
  | some (cv, off1) =>
    match cv with
    | .int n => varsizeReader e ic data off1 n
    | _ => none

/-- `PlyProperty.make_binary_reader(dtype, endianness)` of `src/ply2coll.py`
at construction time. -/
def mkBinaryReader (dtype endianness : String) : Except String Reader :=
  match tr endianness, tr dtype with
  | some e, some c => .ok (scalarReader e c)
  | _, _ => .error "KeyError"

/-- `PlyProperty.make_binary_list_reader(stype, dtype, endianness)` of
`src/ply2coll.py` at construction time. -/
def mkBinaryListReader (stype dtype endianness : String) : Except String Reader :=
  match tr endianness, tr stype, tr dtype with
  | some e, some sc, some ic => .ok (listReader e sc ic)
  | _, _, _ => .error "KeyError"

/-- The ASCII path and invalid-specifier fallthrough of
`PlyProperty.make_reader` in `src/ply2coll.py`: unlike `src/ply.py`, the
`ascii` case calls `self.make_ascii_reader()` with no arguments and no
`is_list` test, so it raises `NotImplementedError` immediately for every
dtype; any other specifier raises `RuntimeError`. -/
def asciiBranch (ff0 : String) : Except String Reader :=
  if ff0 = "ascii" then .error "NotImplementedError"
  else .error "RuntimeError: Invalid file format specifier"

/-- `PlyProperty.make_reader(file_format)` of `src/ply2coll.py`: identical to
the `src/ply.py` copy on the binary paths, and differing only in the body of
the `ascii` branch. -/
def makeReader (dtype : List String) (file_format : String) : Except String Reader :=
  let ff := splitUnderscore file_format
  if ff.headD "" = "binary" then
    match ff.get? 1 with
    | none => .error "IndexError"
    | some e1 =>
      if e1 = "little" ∨ e1 = "big" then
        match dtype.get? 0 with
        | none => .error "IndexError"
        | some t0 =>
          if t0 = "list" then
            match dtype.get? 1, dtype.get? 2 with
            | some st, some it => mkBinaryListReader st it e1
            | _, _ => .error "IndexError"
          else mkBinaryReader t0 e1
      else asciiBranch (ff.headD "")
  else asciiBranch (ff.headD "")

end Ply2coll

/-- The successful result of a construction-time computation, `none` when it
raised. -/
def exceptOk {α : Type} : Except String α → Option α
  | .ok a => some a
  | .error _ => none


/-! ### Basic facts about the binary readers of `src/ply.py` -/

namespace Ply

theorem calcsize_pos (c : String) : 0 < calcsize c := by
  unfold calcsize
  repeat' split
  all_goals omega

theorem scalarReader_advance (e c : String) (data : List Byte) (off : Nat) (v : PValue)
    (off2 : Nat) (h : scalarReader e c data off = some (v, off2)) :
    v = unpackOne e c ((data.drop off).take (calcsize c))
      ∧ off2 = off + calcsize c ∧ off + calcsize c ≤ data.length := by
  unfold scalarReader at h
  simp only [] at h
  split at h
  case isTrue hlen =>
    obtain ⟨hv, ho⟩ := Prod.mk.injEq .. ▸ Option.some.injEq .. ▸ h
    have hp := calcsize_pos c
    simp only [List.length_take, List.length_drop] at hlen
    exact ⟨hv.symm, ho.symm, by omega⟩
  case isFalse => exact absurd h (by simp)

theorem scalarReader_some (e c : String) (data : List Byte) (off : Nat)
    (h : off + calcsize c ≤ data.length) :
    scalarReader e c data off
      = some (unpackOne e c ((data.drop off).take (calcsize c)), off + calcsize c) := by
  have hlen : ((data.drop off).take (calcsize c)).length = calcsize c := by
    simp only [List.length_take, List.length_drop]
    omega
  unfold scalarReader
  simp [hlen]

theorem varsizeReader_advance (e c : String) (data : List Byte) (off : Nat) (count : Int)
    (v : PValue) (off2 : Nat) (h : varsizeReader e c data off count = some (v, off2)) :
    0 ≤ count
      ∧ v = .list (unpackMany e c count.toNat ((data.drop off).take (count.toNat * calcsize c)))
      ∧ off2 = off + count.toNat * calcsize c
      ∧ (count.toNat * calcsize c = 0 ∨ off + count.toNat * calcsize c ≤ data.length) := by
  unfold varsizeReader at h
  split at h
  case isTrue => exact absurd h (by simp)
  case isFalse hneg =>
    simp only [] at h
    split at h
    case isTrue hlen =>
      obtain ⟨hv, ho⟩ := Prod.mk.injEq .. ▸ Option.some.injEq .. ▸ h
      simp only [List.length_take, List.length_drop] at hlen
      exact ⟨by omega, hv.symm, ho.symm, by omega⟩
    case isFalse => exact absurd h (by simp)

theorem varsizeReader_some (e c : String) (data : List Byte) (off : Nat) (count : Int)
    (hc : 0 ≤ count) (h : off + count.toNat * calcsize c ≤ data.length) :
    varsizeReader e c data off count
      = some (.list (unpackMany e c count.toNat ((data.drop off).take (count.toNat * calcsize c))),
          off + count.toNat * calcsize c) := by
  have hlen : ((data.drop off).take (count.toNat * calcsize c)).length
      = count.toNat * calcsize c := by
    simp only [List.length_take, List.length_drop]
    omega
  unfold varsizeReader
  rw [if_neg (by omega)]
  simp [hlen]

theorem unpackMany_length (e c : String) : ∀ (n : Nat) (chunk : List Byte),
    (unpackMany e c n chunk).length = n
  | 0, _ => rfl
  | n + 1, chunk => by
    simp only [unpackMany, List.length_cons, unpackMany_length e c n]

theorem unpackMany_get (e c : String) : ∀ (n i : Nat) (chunk : List Byte), i < n →
    (unpackMany e c n chunk).get? i
      = some (unpackOne e c ((chunk.drop (i * calcsize c)).take (calcsize c)))
  | 0, i, _, h => absurd h (Nat.not_lt_zero i)
  | n + 1, 0, chunk, _ => by
    simp [unpackMany]
  | n + 1, i + 1, chunk, h => by
    have ih := unpackMany_get e c n i (chunk.drop (calcsize c)) (Nat.lt_of_succ_lt_succ h)
    have harith : calcsize c + i * calcsize c = (i + 1) * calcsize c := by ring
    simp only [unpackMany, List.get?_cons_succ, ih, List.drop_drop, harith]

theorem listReader_advance (e sc ic : String) (data : List Byte) (off : Nat) (v : PValue)
    (off2 : Nat) (h : listReader e sc ic data off = some (v, off2)) :
    ∃ n : Int, 0 ≤ n
      ∧ scalarReader e sc data off = some (.int n, off + calcsize sc)
      ∧ off + calcsize sc ≤ data.length
      ∧ v = .list (unpackMany e ic n.toNat
          ((data.drop (off + calcsize sc)).take (n.toNat * calcsize ic)))
      ∧ off2 = off + calcsize sc + n.toNat * calcsize ic
      ∧ off2 ≤ data.length := by
  unfold listReader at h
  split at h
  case h_1 => exact absurd h (by simp)
  case h_2 cv off1 heq =>
    split at h
    case h_1 n =>
      obtain ⟨hcv, ho1, hb⟩ := scalarReader_advance e sc data off _ _ heq
      obtain ⟨hn, hv, ho2, hbnd⟩ := varsizeReader_advance e ic data off1 n _ _ h
      subst ho1
      exact ⟨n, hn, heq, hb, hv, ho2, by
        rcases hbnd with h0 | hle
        · omega
        · omega⟩
    case h_2 => exact absurd h (by simp)

end Ply

namespace Ply

theorem chain_cons_some {α : Type} (r : List Byte → Nat → Option (α × Nat))
    (rs : List (List Byte → Nat → Option (α × Nat))) (data : List Byte) (off : Nat)
    (vs : List α) (off2 : Nat) :
    chain (r :: rs) data off = some (vs, off2)
      ↔ ∃ v o1 vs1, r data off = some (v, o1) ∧ chain rs data o1 = some (vs1, off2)
          ∧ vs = v :: vs1 := by
  constructor
  · intro h
    unfold chain at h
    split at h
    case h_1 => exact absurd h (by simp)
    case h_2 v o1 heq1 =>
      split at h
      case h_1 => exact absurd h (by simp)
      case h_2 vs1 o2 heq2 =>
        obtain ⟨hv, ho⟩ := Prod.mk.injEq .. ▸ Option.some.injEq .. ▸ h
        exact ⟨v, o1, vs1, heq1, ho ▸ heq2, hv.symm⟩
  · rintro ⟨v, o1, vs1, h1, h2, rfl⟩
    unfold chain
    rw [h1]
    dsimp only
    rw [h2]

theorem chain_cons_eq {α : Type} (r : List Byte → Nat → Option (α × Nat))
    (rs : List (List Byte → Nat → Option (α × Nat))) (data : List Byte) (off : Nat) :
    chain (r :: rs) data off
      = match r data off with
        | none => none
        | some (v, o1) =>
          match chain rs data o1 with
          | none => none
          | some (vs, o2) => some (v :: vs, o2) := by
  simp only [chain]

theorem chain_length {α : Type} :
    ∀ (rs : List (List Byte → Nat → Option (α × Nat))) (data : List Byte) (off : Nat)
      (vs : List α) (off2 : Nat), chain rs data off = some (vs, off2) → vs.length = rs.length
  | [], _, _, vs, _, h => by
    obtain ⟨hv, _⟩ := Prod.mk.injEq .. ▸ Option.some.injEq .. ▸ h
    simp [← hv]
  | r :: rs, data, off, vs, off2, h => by
    obtain ⟨v, o1, vs1, _, h2, rfl⟩ := (chain_cons_some r rs data off vs off2).mp h
    simp [chain_length rs data o1 vs1 off2 h2]

theorem chain_extend {α : Type} :
    ∀ (rs : List (List Byte → Nat → Option (α × Nat))) (data t : List Byte) (off : Nat)
      (vs : List α) (off2 : Nat),
      (∀ r ∈ rs, ∀ o v o2, r data o = some (v, o2) → r (data ++ t) o = some (v, o2)) →
      chain rs data off = some (vs, off2) → chain rs (data ++ t) off = some (vs, off2)
  | [], _, _, _, _, _, _, h => h
  | r :: rs, data, t, off, vs, off2, hext, h => by
    obtain ⟨v, o1, vs1, h1, h2, rfl⟩ := (chain_cons_some r rs data off vs off2).mp h
    refine (chain_cons_some r rs (data ++ t) off (v :: vs1) off2).mpr
      ⟨v, o1, vs1, hext r (by simp) off v o1 h1, ?_, rfl⟩
    exact chain_extend rs data t o1 vs1 off2 (fun r hr => hext r (by simp [hr])) h2

theorem chain_mono {α : Type} :
    ∀ (rs : List (List Byte → Nat → Option (α × Nat))) (data : List Byte) (off : Nat)
      (vs : List α) (off2 : Nat),
      (∀ r ∈ rs, ∀ o v o2, r data o = some (v, o2) → o ≤ o2 ∧ o2 ≤ max o data.length) →
      chain rs data off = some (vs, off2) → off ≤ off2 ∧ off2 ≤ max off data.length
  | [], _, off, vs, off2, _, h => by
    obtain ⟨_, ho⟩ := Prod.mk.injEq .. ▸ Option.some.injEq .. ▸ h
    omega
  | r :: rs, data, off, vs, off2, hm, h => by
    obtain ⟨v, o1, vs1, h1, h2, rfl⟩ := (chain_cons_some r rs data off vs off2).mp h
    have hh := hm r (by simp) off v o1 h1
    have ht := chain_mono rs data o1 vs1 off2 (fun r hr => hm r (by simp [hr])) h2
    omega

theorem scalarReader_extend (e c : String) (data t : List Byte) (off : Nat) (v : PValue)
    (off2 : Nat) (h : scalarReader e c data off = some (v, off2)) :
    scalarReader e c (data ++ t) off = some (v, off2) := by
  obtain ⟨hv, ho, hb⟩ := scalarReader_advance e c data off v off2 h
  have hp := calcsize_pos c
  have hwin : ((data ++ t).drop off).take (calcsize c) = (data.drop off).take (calcsize c) := by
    rw [List.drop_append_of_le_length (by omega),
      List.take_append_of_le_length (by simp only [List.length_drop]; omega)]
  rw [scalarReader_some e c (data ++ t) off (by simp only [List.length_append]; omega), hwin,
    ← hv, ← ho]

theorem varsizeReader_zero_count (e c : String) (data : List Byte) (off : Nat) (count : Int)
    (hc : 0 ≤ count) (h0 : count.toNat = 0) :
    varsizeReader e c data off count = some (.list [], off) := by
  unfold varsizeReader
  rw [if_neg (by omega)]
  simp [h0, unpackMany]

theorem varsizeReader_extend (e c : String) (data t : List Byte) (off : Nat) (count : Int)
    (v : PValue) (off2 : Nat) (h : varsizeReader e c data off count = some (v, off2)) :
    varsizeReader e c (data ++ t) off count = some (v, off2) := by
  obtain ⟨hc, hv, ho, hbnd⟩ := varsizeReader_advance e c data off count v off2 h
  rcases hbnd with h0 | hle
  · have hp := calcsize_pos c
    have hn0 : count.toNat = 0 := by
      rcases Nat.mul_eq_zero.mp h0 with h9 | h9
      · exact h9
      · omega
    rw [varsizeReader_zero_count e c (data ++ t) off count hc hn0]
    rw [varsizeReader_zero_count e c data off count hc hn0] at h
    exact h
  · have hoff : off ≤ data.length := le_trans (Nat.le_add_right off _) hle
    have hsz : count.toNat * calcsize c ≤ data.length - off :=
      Nat.le_sub_of_add_le (Nat.add_comm off _ ▸ hle)
    have hb2 : off + count.toNat * calcsize c ≤ (data ++ t).length := by
      simp only [List.length_append]
      exact le_trans hle (Nat.le_add_right ..)
    have hwin : ((data ++ t).drop off).take (count.toNat * calcsize c)
        = (data.drop off).take (count.toNat * calcsize c) := by
      rw [List.drop_append_of_le_length hoff,
        List.take_append_of_le_length (by simpa only [List.length_drop] using hsz)]
    rw [varsizeReader_some e c (data ++ t) off count hc hb2, hwin, ← hv, ← ho]

theorem listReader_extend (e sc ic : String) (data t : List Byte) (off : Nat) (v : PValue)
    (off2 : Nat) (h : listReader e sc ic data off = some (v, off2)) :
    listReader e sc ic (data ++ t) off = some (v, off2) := by
  unfold listReader at h ⊢
  split at h
  case h_1 => exact absurd h (by simp)
  case h_2 cv off1 heq =>
    rw [scalarReader_extend e sc data t off cv off1 heq]
    split at h
    case h_1 n => exact varsizeReader_extend e ic data t off1 n v off2 h
    case h_2 hne => exact absurd h (by simp)

theorem asciiBranch_ne_ok (dtype : List String) (ff0 : String) (r : Reader) :
    asciiBranch dtype ff0 ≠ .ok r := by
  unfold asciiBranch
  repeat' split
  all_goals simp

theorem makeReader_ok (dtype : List String) (ff : String) (r : Reader)
    (h : makeReader dtype ff = .ok r) :
    ∃ e1 e, (splitUnderscore ff).get? 1 = some e1 ∧ (e1 = "little" ∨ e1 = "big")
      ∧ tr e1 = some e
      ∧ ((∃ t0 c, dtype.get? 0 = some t0 ∧ t0 ≠ "list" ∧ tr t0 = some c ∧ r = scalarReader e c)
        ∨ (∃ st it sc ic, dtype.get? 0 = some "list" ∧ dtype.get? 1 = some st
            ∧ dtype.get? 2 = some it ∧ tr st = some sc ∧ tr it = some ic
            ∧ r = listReader e sc ic)) := by
  unfold makeReader at h
  simp only [] at h
  split at h
  case isFalse => exact absurd h (asciiBranch_ne_ok _ _ _)
  case isTrue hbin =>
    split at h
    case h_1 => exact absurd h (by simp)
    case h_2 e1 hg1 =>
      split at h
      case isFalse => exact absurd h (asciiBranch_ne_ok _ _ _)
      case isTrue he1 =>
        split at h
        case h_1 => exact absurd h (by simp)
        case h_2 t0 hg0 =>
          split at h
          case isTrue ht0 =>
            split at h
            case h_1 st it hg1d hg2d =>
              unfold mkBinaryListReader at h
              split at h
              case h_1 e sc ic htre htrs htri =>
                obtain rfl := (Except.ok.injEq .. ▸ h).symm
                exact ⟨e1, e, hg1, he1, htre,
                  .inr ⟨st, it, sc, ic, ht0 ▸ hg0, hg1d, hg2d, htrs, htri, rfl⟩⟩
              case h_2 => exact absurd h (by simp)
            case h_2 => exact absurd h (by simp)
          case isFalse ht0 =>
            unfold mkBinaryReader at h
            split at h
            case h_1 e c htre htr =>
              obtain rfl := (Except.ok.injEq .. ▸ h).symm
              exact ⟨e1, e, hg1, he1, htre, .inl ⟨t0, c, hg0, ht0, htr, rfl⟩⟩
            case h_2 => exact absurd h (by simp)

theorem makeReader_ok_extend (dtype : List String) (ff : String) (r : Reader)
    (hmk : makeReader dtype ff = .ok r) (data t : List Byte) (off : Nat) (v : PValue)
    (off2 : Nat) (h : r data off = some (v, off2)) : r (data ++ t) off = some (v, off2) := by
  obtain ⟨e1, e, _, _, _, hcase⟩ := makeReader_ok dtype ff r hmk
  rcases hcase with ⟨t0, c, _, _, _, rfl⟩ | ⟨st, it, sc, ic, _, _, _, _, _, rfl⟩
  · exact scalarReader_extend e c data t off v off2 h
  · exact listReader_extend e sc ic data t off v off2 h

end Ply

/-! ### Offset accounting -/

theorem mapExcept_ok_cons {α β : Type} (f : α → Except String β) (a : α) (as : List α)
    (bs : List β) (h : mapExcept f (a :: as) = .ok bs) :
    ∃ b bs1, f a = .ok b ∧ mapExcept f as = .ok bs1 ∧ bs = b :: bs1 := by
  unfold mapExcept at h
  split at h
  case h_1 => exact absurd h (by simp)
  case h_2 b hb =>
    split at h
    case h_1 => exact absurd h (by simp)
    case h_2 bs1 hbs =>
      exact ⟨b, bs1, hb, hbs, (Except.ok.injEq .. ▸ h).symm⟩

theorem mapExcept_length {α β : Type} :
    ∀ (f : α → Except String β) (l : List α) (bs : List β),
      mapExcept f l = .ok bs → bs.length = l.length
  | _, [], bs, h => by simp [(Except.ok.injEq .. ▸ h).symm]
  | f, a :: as, bs, h => by
    obtain ⟨b, bs1, _, hbs, rfl⟩ := mapExcept_ok_cons f a as bs h
    simp [mapExcept_length f as bs1 hbs]

theorem mapExcept_mem {α β : Type} :
    ∀ (f : α → Except String β) (l : List α) (bs : List β),
      mapExcept f l = .ok bs → ∀ b ∈ bs, ∃ a ∈ l, f a = .ok b
  | _, [], bs, h => by simp [(Except.ok.injEq .. ▸ h).symm]
  | f, a :: as, bs, h => by
    obtain ⟨b, bs1, hb, hbs, rfl⟩ := mapExcept_ok_cons f a as bs h
    intro x hx
    rcases List.mem_cons.mp hx with rfl | hx1
    · exact ⟨a, by simp, hb⟩
    · obtain ⟨a1, ha1, hfa1⟩ := mapExcept_mem f as bs1 hbs x hx1
      exact ⟨a1, by simp [ha1], hfa1⟩

namespace Ply

/-- The Python `len` of a decoded list value (0 on non-lists). -/
def listLen : PValue → Nat
  | .list vs => vs.length
  | _ => 0

/-- The byte advance of one property read as the spec states it: the fixed
width for a scalar dtype, count-type width plus `n` times item-type width for
a list dtype whose decoded value holds `n` items. -/
def propAdvance (dtype : List String) (v : PValue) : Nat :=
  if dtype.headD "" = "list" then
    width_of (dtype.getD 1 "") + listLen v * width_of (dtype.getD 2 "")
  else width_of (dtype.headD "")

/-- Sum of the property advances across one record's values. -/
def valsAdvance (props : List PlyProp) (vs : List PValue) : Nat :=
  (List.zipWith (fun p v => propAdvance p.dtype v) props vs).sum

/-- Sum of the record advances across one element's records. -/
def recsAdvance (props : List PlyProp) (recs : List Record) : Nat :=
  (recs.map (fun rec => valsAdvance props (rec.map Prod.snd))).sum

/-- Sum of the element advances across the whole document. -/
def docAdvance (es : List PlyElem) (res : List (List Record)) : Nat :=
  (List.zipWith (fun e recs => recsAdvance e.props recs) es res).sum

theorem makeReader_ok_advance (dtype : List String) (ff : String) (r : Reader)
    (hmk : makeReader dtype ff = .ok r) (data : List Byte) (off : Nat) (v : PValue)
    (off2 : Nat) (h : r data off = some (v, off2)) :
    off2 = off + propAdvance dtype v ∧ off ≤ off2 ∧ off2 ≤ data.length := by
  obtain ⟨e1, e, _, _, _, hcase⟩ := makeReader_ok dtype ff r hmk
  rcases hcase with ⟨t0, c, hg0, hnl, htr, rfl⟩ | ⟨st, it, sc, ic, hg0, hg1d, hg2d, htrs, htri, rfl⟩
  · obtain ⟨hv, ho, hb⟩ := scalarReader_advance e c data off v off2 h
    rcases dtype with _ | ⟨d0, rest⟩
    · simp at hg0
    · have hd0 : d0 = t0 := by simpa using hg0
      have hw : propAdvance (d0 :: rest) v = calcsize c := by
        unfold propAdvance
        rw [if_neg (by simp only [List.headD_cons]; rw [hd0]; exact hnl)]
        simp only [List.headD_cons]
        rw [hd0]
        simp [width_of, htr]
      rw [hw]
      exact ⟨ho, by omega, by omega⟩
  · obtain ⟨n, hn, hsc, hb1, hv, ho, hb2⟩ := listReader_advance e sc ic data off v off2 h
    rcases dtype with _ | ⟨d0, _ | ⟨d1, _ | ⟨d2, rest⟩⟩⟩
    · simp at hg0
    · simp at hg1d
    · simp at hg2d
    · have hd0 : d0 = "list" := by simpa using hg0
      have hd1 : d1 = st := by simpa using hg1d
      have hd2 : d2 = it := by simpa using hg2d
      have hw : propAdvance (d0 :: d1 :: d2 :: rest) v
          = calcsize sc + n.toNat * calcsize ic := by
        unfold propAdvance
        rw [if_pos (by simp [hd0])]
        subst hv
        simp only [List.getD_cons_succ, List.getD_cons_zero, listLen]
        rw [hd1, hd2]
        simp [width_of, htrs, htri, unpackMany_length]
      refine ⟨by rw [hw, ho, Nat.add_assoc], ?_, hb2⟩
      rw [ho]
      exact le_trans (Nat.le_add_right ..) (Nat.le_add_right ..)

theorem valsAdvance_cons (p : PlyProp) (ps : List PlyProp) (v : PValue) (vs : List PValue) :
    valsAdvance (p :: ps) (v :: vs) = propAdvance p.dtype v + valsAdvance ps vs := by
  simp [valsAdvance]

theorem props_chain_advance :
    ∀ (props : List PlyProp) (ff : String) (rs : List Reader),
      mapExcept (fun p => makeReader p.dtype ff) props = .ok rs →
      ∀ (data : List Byte) (off : Nat) (vs : List PValue) (off2 : Nat),
        chain rs data off = some (vs, off2) →
        off2 = off + valsAdvance props vs ∧ off ≤ off2 ∧ off2 ≤ max off data.length
  | [], _, rs, hmk, data, off, vs, off2, h => by
    obtain rfl : rs = [] := by
      simpa using (mapExcept_length _ [] rs hmk)
    obtain ⟨hv, ho⟩ := Prod.mk.injEq .. ▸ Option.some.injEq .. ▸ h
    subst hv ho
    simp [valsAdvance]
  | p :: ps, ff, rs, hmk, data, off, vs, off2, h => by
    obtain ⟨r, rs1, hr, hrs1, rfl⟩ := mapExcept_ok_cons _ p ps rs hmk
    obtain ⟨v, o1, vs1, h1, h2, rfl⟩ := (chain_cons_some r rs1 data off vs off2).mp h
    obtain ⟨hadv, hm1, hm2⟩ := makeReader_ok_advance p.dtype ff r hr data off v o1 h1
    obtain ⟨hadv2, hm3, hm4⟩ := props_chain_advance ps ff rs1 hrs1 data o1 vs1 off2 h2
    rw [valsAdvance_cons]
    refine ⟨by rw [hadv2, hadv, Nat.add_assoc], by omega, by omega⟩

end Ply

namespace Ply

theorem readItem_some (names : List String) (rs : List Reader) (data : List Byte) (off : Nat)
    (rec : Record) (off2 : Nat) (h : readItem names rs data off = some (rec, off2)) :
    ∃ vs, chain rs data off = some (vs, off2) ∧ rec = names.zip vs := by
  unfold readItem at h
  cases hc : chain rs data off with
  | none => rw [hc] at h; exact absurd h (by simp)
  | some vo =>
    rw [hc] at h
    obtain ⟨hr, ho⟩ := Prod.mk.injEq .. ▸ Option.some.injEq .. ▸ h
    exact ⟨vo.1, by simp [← ho], hr.symm⟩

theorem readItem_advance (props : List PlyProp) (ff : String) (rs : List Reader)
    (hmk : mapExcept (fun p => makeReader p.dtype ff) props = .ok rs)
    (data : List Byte) (off : Nat) (rec : Record) (off2 : Nat)
    (h : readItem (props.map PlyProp.name) rs data off = some (rec, off2)) :
    off2 = off + valsAdvance props (rec.map Prod.snd)
      ∧ off ≤ off2 ∧ off2 ≤ max off data.length := by
  obtain ⟨vs, hc, rfl⟩ := readItem_some (props.map PlyProp.name) rs data off rec off2 h
  have hlen : vs.length = rs.length := chain_length rs data off vs off2 hc
  have hplen : rs.length = props.length := mapExcept_length _ props rs hmk
  have hsnd : ((props.map PlyProp.name).zip vs).map Prod.snd = vs :=
    List.map_snd_zip (props.map PlyProp.name) vs (by simp [hlen, hplen])
  rw [hsnd]
  exact props_chain_advance props ff rs hmk data off vs off2 hc

theorem replicate_chain_advance (props : List PlyProp) (ff : String) (rs : List Reader)
    (hmk : mapExcept (fun p => makeReader p.dtype ff) props = .ok rs) :
    ∀ (n : Nat) (data : List Byte) (off : Nat) (recs : List Record) (off2 : Nat),
      chain (List.replicate n (readItem (props.map PlyProp.name) rs)) data off
          = some (recs, off2) →
      off2 = off + recsAdvance props recs ∧ off ≤ off2 ∧ off2 ≤ max off data.length
  | 0, data, off, recs, off2, h => by
    obtain ⟨hr, ho⟩ := Prod.mk.injEq .. ▸ Option.some.injEq .. ▸ h
    subst ho
    simp [← hr, recsAdvance]
  | n + 1, data, off, recs, off2, h => by
    rw [List.replicate_succ] at h
    obtain ⟨rec, o1, recs1, h1, h2, rfl⟩ := (chain_cons_some _ _ data off recs off2).mp h
    obtain ⟨ha1, hm1, hm2⟩ := readItem_advance props ff rs hmk data off rec o1 h1
    obtain ⟨ha2, hm3, hm4⟩ :=
      replicate_chain_advance props ff rs hmk n data o1 recs1 off2 h2
    refine ⟨?_, by omega, by omega⟩
    have hcons : recsAdvance props (rec :: recs1)
        = valsAdvance props (rec.map Prod.snd) + recsAdvance props recs1 := by
      simp [recsAdvance]
    rw [hcons, ha2, ha1, Nat.add_assoc]

theorem mkElemReader_ok (e : PlyElem) (ff : String)
    (er : List Byte → Nat → Option (List Record × Nat)) (h : mkElemReader e ff = .ok er) :
    ∃ rs, mapExcept (fun p => makeReader p.dtype ff) e.props = .ok rs
      ∧ er = elemReader (e.props.map PlyProp.name) rs e.count := by
  unfold mkElemReader at h
  split at h
  case h_1 => exact absurd h (by simp)
  case h_2 rs hrs => exact ⟨rs, hrs, (Except.ok.injEq .. ▸ h).symm⟩

theorem elems_chain_advance :
    ∀ (es : List PlyElem) (ff : String)
      (ers : List (List Byte → Nat → Option (List Record × Nat))),
      mapExcept (fun e => mkElemReader e ff) es = .ok ers →
      ∀ (data : List Byte) (off : Nat) (res : List (List Record)) (off2 : Nat),
        chain ers data off = some (res, off2) →
        off2 = off + docAdvance es res ∧ off ≤ off2 ∧ off2 ≤ max off data.length
  | [], _, ers, hmk, data, off, res, off2, h => by
    obtain rfl : ers = [] := by simpa using (mapExcept_length _ [] ers hmk)
    obtain ⟨hr, ho⟩ := Prod.mk.injEq .. ▸ Option.some.injEq .. ▸ h
    subst ho
    simp [← hr, docAdvance]
  | e :: es, ff, ers, hmk, data, off, res, off2, h => by
    obtain ⟨er, ers1, her, hers1, rfl⟩ := mapExcept_ok_cons _ e es ers hmk
    obtain ⟨recs, o1, res1, h1, h2, rfl⟩ := (chain_cons_some er ers1 data off res off2).mp h
    obtain ⟨rs, hrs, rfl⟩ := mkElemReader_ok e ff er her
    unfold elemReader at h1
    obtain ⟨ha1, hm1, hm2⟩ :=
      replicate_chain_advance e.props ff rs hrs e.count.toNat data off recs o1 h1
    obtain ⟨ha2, hm3, hm4⟩ := elems_chain_advance es ff ers1 hers1 data o1 res1 off2 h2
    refine ⟨?_, by omega, by omega⟩
    have hcons : docAdvance (e :: es) (recs :: res1)
        = recsAdvance e.props recs + docAdvance es res1 := by
      simp [docAdvance]
    rw [hcons, ha2, ha1, Nat.add_assoc]

theorem readItem_extend (names : List String) (props : List PlyProp) (ff : String)
    (rs : List Reader) (hmk : mapExcept (fun p => makeReader p.dtype ff) props = .ok rs)
    (data t : List Byte) (off : Nat) (rec : Record) (off2 : Nat)
    (h : readItem names rs data off = some (rec, off2)) :
    readItem names rs (data ++ t) off = some (rec, off2) := by
  unfold readItem at h ⊢
  cases hc : chain rs data off with
  | none => rw [hc] at h; exact absurd h (by simp)
  | some vo =>
    rw [hc] at h
    have hext : chain rs (data ++ t) off = some vo := by
      obtain ⟨vs, o2⟩ := vo
      refine chain_extend rs data t off vs o2 ?_ hc
      intro r hr o v o2b hro
      obtain ⟨p, _, hp⟩ := mapExcept_mem _ props rs hmk r hr
      exact makeReader_ok_extend p.dtype ff r hp data t o v o2b hro
    rw [hext, h]

theorem elemReader_extend (props : List PlyProp) (ff : String) (rs : List Reader)
    (hmk : mapExcept (fun p => makeReader p.dtype ff) props = .ok rs) (count : Int)
    (data t : List Byte) (off : Nat) (recs : List Record) (off2 : Nat)
    (h : elemReader (props.map PlyProp.name) rs count data off = some (recs, off2)) :
    elemReader (props.map PlyProp.name) rs count (data ++ t) off = some (recs, off2) := by
  unfold elemReader at h ⊢
  refine chain_extend _ data t off recs off2 ?_ h
  intro r hr o v o2 hro
  obtain rfl : r = readItem (props.map PlyProp.name) rs := List.eq_of_mem_replicate hr
  exact readItem_extend (props.map PlyProp.name) props ff rs hmk data t o v o2 hro

theorem readDoc_eq (h : PlyHeader) (data : List Byte) (off : Nat)
    (ers : List (List Byte → Nat → Option (List Record × Nat)))
    (hm : mapExcept (fun e => mkElemReader e h.file_format) h.elements = .ok ers) :
    readDoc h data off
      = match chain ers data off with
        | some (res, off2) => .ok ((h.elements.map PlyElem.name).zip res, off2)
        | none => .error "struct.error" := by
  unfold readDoc
  rw [hm]

theorem readDoc_ok_inv (h : PlyHeader) (data : List Byte) (off : Nat)
    (res : List (String × List Record)) (final : Nat)
    (hr : readDoc h data off = .ok (res, final)) :
    ∃ ers resRaw, mapExcept (fun e => mkElemReader e h.file_format) h.elements = .ok ers
      ∧ chain ers data off = some (resRaw, final)
      ∧ res = (h.elements.map PlyElem.name).zip resRaw := by
  unfold readDoc at hr
  split at hr
  case h_1 => exact absurd hr (by simp)
  case h_2 ers hers =>
    split at hr
    case h_2 => exact absurd hr (by simp)
    case h_1 resRaw off2 hc =>
      obtain ⟨hres, ho⟩ := Prod.mk.injEq .. ▸ Except.ok.injEq .. ▸ hr
      exact ⟨ers, resRaw, hers, ho ▸ hc, hres.symm⟩

end Ply

/-! ### The claims -/

/-- Helper: the fixed-size scalar reader on a sufficient buffer, stated via
`width_of`. -/
theorem Ply.scalarReader_fixed (e c t : String) (hw : Ply.width_of t = calcsize c) :
    ∀ (data : List Byte) (off : Nat), off + Ply.width_of t ≤ data.length →
      Ply.scalarReader e c data off
        = some (unpackOne e c ((data.drop off).take (Ply.width_of t)), off + Ply.width_of t) := by
  intro data off hle
  rw [hw] at hle ⊢
  exact Ply.scalarReader_some e c data off hle

/-- Claim C2: for every scalar property of one of the eight scalar types
(with byte widths 1,1,2,2,4,4,4,8) and either endianness, the constructed
scalar decoder, applied at an offset with at least `width_of t` bytes
available, reads exactly the `width_of t` bytes starting at the offset (its
value is `struct.unpack` of precisely that slice) and returns the decoded
value paired with `offset + width_of t`. -/
theorem claim_C2_scalar_decoder :
    (Ply.width_of "uchar" = 1 ∧ Ply.width_of "char" = 1 ∧ Ply.width_of "ushort" = 2
      ∧ Ply.width_of "short" = 2 ∧ Ply.width_of "uint" = 4 ∧ Ply.width_of "int" = 4
      ∧ Ply.width_of "float" = 4 ∧ Ply.width_of "double" = 8)
    ∧ ∀ (t en : String),
        t ∈ ["uchar", "char", "ushort", "short", "uint", "int", "float", "double"] →
        en ∈ ["little", "big"] →
        ∃ ec c, Ply.tr en = some ec ∧ Ply.tr t = some c
          ∧ Ply.mkBinaryReader t en = .ok (Ply.scalarReader ec c)
          ∧ ∀ (data : List Byte) (off : Nat), off + Ply.width_of t ≤ data.length →
              Ply.scalarReader ec c data off
                = some (unpackOne ec c ((data.drop off).take (Ply.width_of t)),
                    off + Ply.width_of t) := by
  refine ⟨by decide, ?_⟩
  intro t en ht hen
  fin_cases ht <;> fin_cases hen <;>
    exact ⟨_, _, rfl, rfl, rfl, Ply.scalarReader_fixed _ _ _ (by decide)⟩

/-- Witness for C2 at the `short` type and `little` endianness. -/
theorem claim_C2_scalar_decoder_witness :
    ∃ ec c, Ply.tr "little" = some ec ∧ Ply.tr "short" = some c
      ∧ Ply.mkBinaryReader "short" "little" = .ok (Ply.scalarReader ec c)
      ∧ ∀ (data : List Byte) (off : Nat), off + Ply.width_of "short" ≤ data.length →
          Ply.scalarReader ec c data off
            = some (unpackOne ec c ((data.drop off).take (Ply.width_of "short")),
                off + Ply.width_of "short") :=
  claim_C2_scalar_decoder.2 "short" "little" (by decide) (by decide)

/-- Helper: the `i`-th `w`-byte group of an `n * w`-byte slice of `data`
taken at `base` is the `w`-byte slice of `data` at `base + i * w`. -/
theorem Ply.chunk_window (data : List Byte) (base w i n : Nat) (hin : i < n) :
    (((data.drop base).take (n * w)).drop (i * w)).take w
      = (data.drop (base + i * w)).take w := by
  rw [List.drop_take, List.drop_drop, List.take_take]
  have h1 : n * w - i * w = (n - i) * w := by rw [Nat.sub_mul]
  have h2 : min w ((n - i) * w) = w := by
    apply Nat.min_eq_left
    calc w = 1 * w := (Nat.one_mul w).symm
    _ ≤ (n - i) * w := Nat.mul_le_mul_right w (by omega)
  rw [h1, h2]

/-- Claim C1: the constructed binary list-property decoder first decodes one
scalar of the count type at the offset obtaining an integer `n`, then decodes
`n` consecutive scalars of the item type with no separators, returning the
`n`-item sequence with new offset `offset + width_of ct + n * width_of it`;
and on the scenario-B header and 13-byte payload the face element decodes to
one record with `vertex_index = [0, 1, 2]`. -/
theorem claim_C1_list_decoder :
    (Ply.readHeader
        ["ply\n", "format binary_little_endian 1.0\n", "element face 1\n",
         "property list uchar int vertex_index\n", "end_header\n"]
      = some (.ok ⟨"binary_little_endian", 1,
          [⟨"face", 1, [⟨"vertex_index", ["list", "uchar", "int"]⟩]⟩]⟩)
     ∧ Ply.readData
        ⟨"binary_little_endian", 1, [⟨"face", 1, [⟨"vertex_index", ["list", "uchar", "int"]⟩]⟩]⟩
        [3, 0, 0, 0, 0, 1, 0, 0, 0, 2, 0, 0, 0]
      = .ok [("face", [[("vertex_index", .list [.int 0, .int 1, .int 2])]])])
    ∧ ∀ (ct it en ec cc ic : String),
        Ply.tr en = some ec → Ply.tr ct = some cc → Ply.tr it = some ic →
        Ply.mkBinaryListReader ct it en = .ok (Ply.listReader ec cc ic)
        ∧ ∀ (data : List Byte) (off : Nat) (n : Int) (v : PValue),
            Ply.scalarReader ec cc data off = some (v, off + Ply.width_of ct) →
            v = .int n → 0 ≤ n →
            off + Ply.width_of ct + n.toNat * Ply.width_of it ≤ data.length →
            ∃ vs : List PValue,
              Ply.listReader ec cc ic data off
                = some (.list vs, off + Ply.width_of ct + n.toNat * Ply.width_of it)
              ∧ vs.length = n.toNat
              ∧ ∀ i : Nat, i < n.toNat →
                  vs.get? i = some (unpackOne ec ic
                    ((data.drop (off + Ply.width_of ct + i * Ply.width_of it)).take
                      (Ply.width_of it))) := by
  refine ⟨⟨rfl, rfl⟩, ?_⟩
  intro ct it en ec cc ic htre htrc htri
  have hwc : Ply.width_of ct = calcsize cc := by unfold Ply.width_of; rw [htrc]
  have hwi : Ply.width_of it = calcsize ic := by unfold Ply.width_of; rw [htri]
  constructor
  · unfold Ply.mkBinaryListReader
    rw [htre, htrc, htri]
  · intro data off n v hsc hv hn hle
    subst hv
    rw [hwc, hwi] at hle ⊢
    have hvs := Ply.varsizeReader_some ec ic data (off + calcsize cc) n hn (by omega)
    refine ⟨unpackMany ec ic n.toNat
      ((data.drop (off + calcsize cc)).take (n.toNat * calcsize ic)), ?_, ?_, ?_⟩
    · unfold Ply.listReader
      rw [hsc, hwc]
      dsimp only
      rw [hvs, Nat.add_assoc]
    · exact Ply.unpackMany_length ec ic n.toNat _
    · intro i hi
      rw [Ply.unpackMany_get ec ic n.toNat i _ hi,
        Ply.chunk_window data (off + calcsize cc) (calcsize ic) i n.toNat hi,
        Nat.add_assoc]

/-- Witness for C1: count type `uchar`, item type `int`, little endian, a
9-byte buffer carrying count 2 and items 9 and 7. -/
theorem claim_C1_list_decoder_witness :
    ∃ vs : List PValue,
      Ply.listReader "<" "B" "i" [2, 9, 0, 0, 0, 7, 0, 0, 0] 0
        = some (.list vs, 0 + Ply.width_of "uchar" + (2 : Int).toNat * Ply.width_of "int")
      ∧ vs.length = (2 : Int).toNat
      ∧ ∀ i : Nat, i < (2 : Int).toNat →
          vs.get? i = some (unpackOne "<" "i"
            (([2, 9, 0, 0, 0, 7, 0, 0, 0].drop
                (0 + Ply.width_of "uchar" + i * Ply.width_of "int")).take (Ply.width_of "int"))) :=
  (claim_C1_list_decoder.2 "uchar" "int" "little" "<" "B" "i" rfl rfl rfl).2
    [2, 9, 0, 0, 0, 7, 0, 0, 0] 0 2 (.int 2) rfl rfl (by decide) (by decide)

/-- Claim C4: the element decoder applies the record decoder exactly
`declared_count` times, threading the offset across iterations (each
iteration starting where the previous ended), collecting `declared_count`
records; a zero count yields an empty sequence with no reads and an unchanged
offset; and the record decoder applies the property decoders in declared
order against one threaded offset, keying results by property name in
declared order. -/
theorem claim_C4_element_decoder :
    ∀ (names : List String) (rs : List Reader) (c : Int) (data : List Byte) (off : Nat),
      Ply.elemReader names rs c data off
          = Ply.chain (List.replicate c.toNat (Ply.readItem names rs)) data off
      ∧ (c = 0 → Ply.elemReader names rs c data off = some ([], off))
      ∧ (∀ (recs : List Ply.Record) (off2 : Nat),
          Ply.elemReader names rs c data off = some (recs, off2) → recs.length = c.toNat)
      ∧ (∀ n : Nat, c.toNat = n + 1 →
          Ply.elemReader names rs c data off
            = match Ply.readItem names rs data off with
              | none => none
              | some (rec, o1) =>
                match Ply.elemReader names rs (n : Int) data o1 with
                | none => none
                | some (recs, o2) => some (rec :: recs, o2))
      ∧ (∀ (rec : Ply.Record) (off2 : Nat), Ply.readItem names rs data off = some (rec, off2) →
          ∃ vs, Ply.chain rs data off = some (vs, off2) ∧ rec = names.zip vs
            ∧ vs.length = rs.length) := by
  intro names rs c data off
  refine ⟨rfl, ?_, ?_, ?_, ?_⟩
  · intro hc
    subst hc
    rfl
  · intro recs off2 h
    have := Ply.chain_length _ data off recs off2 h
    simpa using this
  · intro n hn
    unfold Ply.elemReader
    rw [hn, List.replicate_succ, Ply.chain_cons_eq]
    simp only [Int.toNat_ofNat]
    cases hri : Ply.readItem names rs data off with
    | none => rfl
    | some vo =>
      obtain ⟨rec, o1⟩ := vo
      dsimp only
      cases hc2 : Ply.chain (List.replicate n (Ply.readItem names rs)) data o1 with
      | none => rfl
      | some vo2 =>
        obtain ⟨recs, o2⟩ := vo2
        rfl
  · intro rec off2 h
    obtain ⟨vs, hc2, hr⟩ := Ply.readItem_some names rs data off rec off2 h
    exact ⟨vs, hc2, hr, Ply.chain_length rs data off vs off2 hc2⟩

/-- Witness for C4: one `uchar` property named `x`, count 2, buffer `[5, 6]`. -/
theorem claim_C4_element_decoder_witness :
    ([[(("x" : String), PValue.int 5)], [("x", PValue.int 6)]] : List Ply.Record).length
      = (2 : Int).toNat :=
  (claim_C4_element_decoder ["x"] [Ply.scalarReader "<" "B"] 2 [5, 6] 0).2.2.1
    [[("x", PValue.int 5)], [("x", PValue.int 6)]] 2 rfl

/-- Claim C3: for a successful decode the offset is threaded sequentially
(the decoder for element `i+1` starts exactly where element `i` ended), the
total advance equals the sum over all elements, records and properties of
each property's width (fixed width for scalars, count-type width plus
`n`·item-type width for lists), the offset never decreases, the final offset
never exceeds the payload length when decoding starts at 0, and it equals
the payload length exactly when the payload has no trailing bytes. -/
theorem claim_C3_cursor :
    (∀ (h : Ply.PlyHeader) (data : List Byte) (off : Nat)
        (res : List (String × List Ply.Record)) (final : Nat),
      Ply.readDoc h data off = .ok (res, final) →
      final = off + Ply.docAdvance h.elements (res.map Prod.snd)
        ∧ off ≤ final
        ∧ (off = 0 → final ≤ data.length)
        ∧ (off = 0 → data.length = Ply.docAdvance h.elements (res.map Prod.snd) →
            final = data.length))
    ∧ ∀ (er : List Byte → Nat → Option (List Ply.Record × Nat))
        (ers : List (List Byte → Nat → Option (List Ply.Record × Nat)))
        (data : List Byte) (off : Nat),
        Ply.chain (er :: ers) data off
          = match er data off with
            | none => none
            | some (v, o1) =>
              match Ply.chain ers data o1 with
              | none => none
              | some (vs, o2) => some (v :: vs, o2) := by
  constructor
  · intro h data off res final hr
    obtain ⟨ers, resRaw, hm, hc, hres⟩ := Ply.readDoc_ok_inv h data off res final hr
    obtain ⟨ha, hm1, hm2⟩ := Ply.elems_chain_advance h.elements h.file_format ers hm
      data off resRaw final hc
    have hlen1 : resRaw.length = ers.length := Ply.chain_length ers data off resRaw final hc
    have hlen2 : ers.length = h.elements.length := mapExcept_length _ h.elements ers hm
    have hsnd : res.map Prod.snd = resRaw := by
      rw [hres]
      exact List.map_snd_zip (h.elements.map Ply.PlyElem.name) resRaw (by simp [hlen1, hlen2])
    rw [hsnd]
    refine ⟨ha, hm1, ?_, ?_⟩
    · intro h0
      subst h0
      simpa using hm2
    · intro h0 hlen
      omega
  · intro er ers data off
    rw [Ply.chain_cons_eq]
    cases h1 : er data off with
    | none => rfl
    | some vo =>
      obtain ⟨v, o1⟩ := vo
      dsimp only
      cases h2 : Ply.chain ers data o1 with
      | none => rfl
      | some vo2 =>
        obtain ⟨vs, o2⟩ := vo2
        rfl

/-- Witness for C3: one element of two one-byte records over the payload
`[7, 9]`; the final offset 2 is the total advance. -/
theorem claim_C3_cursor_witness :
    (2 : Nat) = 0 + Ply.docAdvance [⟨"vertex", 2, [⟨"x", ["uchar"]⟩]⟩]
        (([(("vertex" : String), [[(("x" : String), PValue.int 7)], [("x", PValue.int 9)]])]
          : List (String × List Ply.Record)).map Prod.snd) :=
  (claim_C3_cursor.1 ⟨"binary_little_endian", 1, [⟨"vertex", 2, [⟨"x", ["uchar"]⟩]⟩]⟩
      [7, 9] 0 [("vertex", [[("x", PValue.int 7)], [("x", PValue.int 9)]])] 2 rfl).1

/-- Claim C5: for a schema whose decode consumes a payload exactly, decoding
the payload cut one byte short fails with the in-read error (`struct.error`,
the slice-length check failing before any byte past the end of the buffer is
touched) and returns no records at all — in particular no partial record. -/
theorem claim_C5_truncation (h : Ply.PlyHeader) (data : List Byte)
    (res : List (String × List Ply.Record))
    (hrun : Ply.readDoc h data 0 = .ok (res, data.length)) (hne : data ≠ []) :
    Ply.readDoc h data.dropLast 0 = .error "struct.error" := by
  obtain ⟨ers, resRaw, hm, hc, _⟩ := Ply.readDoc_ok_inv h data 0 res data.length hrun
  rw [Ply.readDoc_eq h data.dropLast 0 ers hm]
  cases hc2 : Ply.chain ers data.dropLast 0 with
  | none => rfl
  | some vo =>
    exfalso
    obtain ⟨resRaw2, f2⟩ := vo
    obtain ⟨_, _, hb⟩ := Ply.elems_chain_advance h.elements h.file_format ers hm
      data.dropLast 0 resRaw2 f2 hc2
    have hext : Ply.chain ers (data.dropLast ++ [data.getLast hne]) 0 = some (resRaw2, f2) := by
      refine Ply.chain_extend ers data.dropLast [data.getLast hne] 0 resRaw2 f2 ?_ hc2
      intro r hr o v o2 hro
      obtain ⟨e, _, he⟩ := mapExcept_mem _ h.elements ers hm r hr
      obtain ⟨rs, hrs, rfl⟩ := Ply.mkElemReader_ok e h.file_format r he
      exact Ply.elemReader_extend e.props h.file_format rs hrs e.count data.dropLast
        [data.getLast hne] o v o2 hro
    rw [List.dropLast_append_getLast hne, hc] at hext
    obtain ⟨_, hf⟩ := Prod.mk.injEq .. ▸ Option.some.injEq .. ▸ hext
    have hlen : data.dropLast.length = data.length - 1 := by simp [List.length_dropLast]
    have hpos : 0 < data.length := List.length_pos.mpr hne
    simp only [Nat.zero_max] at hb
    omega

/-- Witness for C5: a one-element, one-`uchar`-property schema consuming the
one-byte payload `[7]` exactly; the empty truncated payload fails. -/
theorem claim_C5_truncation_witness :
    Ply.readDoc ⟨"binary_little_endian", 1, [⟨"vertex", 1, [⟨"x", ["uchar"]⟩]⟩]⟩
      ([7] : List Byte).dropLast 0 = .error "struct.error" :=
  claim_C5_truncation ⟨"binary_little_endian", 1, [⟨"vertex", 1, [⟨"x", ["uchar"]⟩]⟩]⟩ [7]
    [("vertex", [[("x", PValue.int 7)]])] rfl (by decide)

/-- Claim C6 (behaviour of the code at the failing inputs): the element-line
validation of `PlyReader._parse_header_elements` is inverted
(`line[0] != "element" and len(line[1]) == 2`), so a malformed element line
with keyword `element` and three arguments is accepted without error (the
extra argument silently ignored), and a line with a wrong keyword and three
arguments is likewise accepted, misread as an element.  The claim (and §4.2
of the spec, which §9 declares authoritative against this acknowledged slip)
requires a fatal parse error on both. -/
theorem claim_C6_element_line_check :
    Ply.readHeader
        ["ply\n", "format binary_little_endian 1.0\n", "element v 7 extra\n", "end_header\n"]
      = some (.ok ⟨"binary_little_endian", 1, [⟨"v", 7, []⟩]⟩)
    ∧ Ply.parseElements [("element", ["v", "7", "extra"])] = .ok [⟨"v", 7, []⟩]
    ∧ Ply.parseElements [("foo", ["x", "3", "y"])] = .ok [⟨"x", 3, []⟩] :=
  ⟨rfl, rfl, rfl⟩

/-- Counterexample to claim C7: a header whose `format` line names the
unrecognized tag `bogus` is parsed without any error — `read_header` stores
the name and version as given, refuting "header parsing itself raises a
fatal error". -/
theorem claim_C7_format_validation_counterexample :
    Ply.readHeader ["ply\n", "format bogus 1.0\n", "end_header\n"]
      = some (.ok ⟨"bogus", 1, []⟩) := rfl

/-- Claim C7 as amended: header parsing stores any format-name unvalidated
(along with the version parsed as a float); the fatal `RuntimeError` for an
unrecognized name is raised only when a property reader is constructed for
payload decoding. -/
theorem claim_C7_format_validation_amended :
    (∀ (file_format : String) (dtype : List String),
        (splitUnderscore file_format).headD "" ≠ "binary" →
        (splitUnderscore file_format).headD "" ≠ "ascii" →
        Ply.makeReader dtype file_format = .error "RuntimeError: Invalid file format specifier")
    ∧ Ply.readHeader ["ply\n", "format bogus 1.0\n", "end_header\n"]
        = some (.ok ⟨"bogus", 1, []⟩)
    ∧ Ply.readHeader ["ply\n", "format binary_big_endian 2.5\n", "end_header\n"]
        = some (.ok ⟨"binary_big_endian", mkRat 5 2, []⟩)
    ∧ Ply.readData ⟨"bogus", 1, [⟨"v", 1, [⟨"x", ["int"]⟩]⟩]⟩ []
        = .error "RuntimeError: Invalid file format specifier" := by
  refine ⟨?_, rfl, rfl, rfl⟩
  intro file_format dtype h1 h2
  unfold Ply.makeReader
  simp only []
  rw [if_neg h1]
  unfold Ply.asciiBranch
  rw [if_neg h2]

/-- Witness for the amended C7 at the format name `bogus`. -/
theorem claim_C7_format_validation_amended_witness :
    Ply.makeReader ["int"] "bogus" = .error "RuntimeError: Invalid file format specifier" :=
  claim_C7_format_validation_amended.1 "bogus" ["int"] (by decide) (by decide)

/-- Helper for C8: on the `ascii` format every well-formed property dtype
makes `PlyProperty.make_reader` raise `NotImplementedError`. -/
theorem Ply.makeReader_ascii : ∀ (dtype : List String), dtype ≠ [] →
    (dtype.headD "" = "list" → 2 < dtype.length) →
    Ply.makeReader dtype "ascii" = .error "NotImplementedError"
  | [], h1, _ => absurd rfl h1
  | d0 :: rest, _, h2 => by
    unfold Ply.makeReader
    simp only []
    rw [if_neg (by decide)]
    unfold Ply.asciiBranch
    rw [if_pos (by decide)]
    by_cases hd : d0 = "list"
    · subst hd
      have hlen : 2 < ("list" :: rest).length := h2 (by simp)
      rcases rest with _ | ⟨d1, _ | ⟨d2, rest3⟩⟩
      · simp at hlen
      · simp at hlen
      · rfl
    · dsimp only [List.get?]
      rw [if_neg hd]

/-- Helper for C8: a non-empty well-formed property list makes the reader
construction of its element fail with `NotImplementedError` on `ascii`. -/
theorem Ply.mapExcept_props_ascii : ∀ (props : List Ply.PlyProp), props ≠ [] →
    (∀ p ∈ props, p.dtype ≠ [] ∧ (p.dtype.headD "" = "list" → 2 < p.dtype.length)) →
    mapExcept (fun p => Ply.makeReader p.dtype "ascii") props = .error "NotImplementedError"
  | [], h, _ => absurd rfl h
  | p :: ps, _, hwf => by
    unfold mapExcept
    rw [Ply.makeReader_ascii p.dtype (hwf p (by simp)).1 (hwf p (by simp)).2]

/-- Helper for C8 at the element level. -/
theorem Ply.mkElemReader_ascii (e : Ply.PlyElem) (hne : e.props ≠ [])
    (hwf : ∀ p ∈ e.props, p.dtype ≠ [] ∧ (p.dtype.headD "" = "list" → 2 < p.dtype.length)) :
    Ply.mkElemReader e "ascii" = .error "NotImplementedError" := by
  unfold Ply.mkElemReader
  rw [Ply.mapExcept_props_ascii e.props hne hwf]

/-- Helper for C8 at the document level. -/
theorem Ply.mapExcept_elems_ascii : ∀ (es : List Ply.PlyElem),
    (∃ e ∈ es, e.props ≠ []) →
    (∀ e ∈ es, ∀ p ∈ e.props, p.dtype ≠ [] ∧ (p.dtype.headD "" = "list" → 2 < p.dtype.length)) →
    mapExcept (fun e => Ply.mkElemReader e "ascii") es = .error "NotImplementedError"
  | [], hex, _ => by simp at hex
  | e :: es, hex, hwf => by
    unfold mapExcept
    by_cases hne : e.props = []
    · have hok : ∃ er, Ply.mkElemReader e "ascii" = .ok er := by
        unfold Ply.mkElemReader
        rw [hne]
        exact ⟨_, rfl⟩
      obtain ⟨er, hok⟩ := hok
      rw [hok]
      have hex2 : ∃ e2 ∈ es, e2.props ≠ [] := by
        rcases hex with ⟨e2, he2, hp⟩
        rcases List.mem_cons.mp he2 with rfl | hmem
        · exact absurd hne hp
        · exact ⟨e2, hmem, hp⟩
      rw [Ply.mapExcept_elems_ascii es hex2 (fun e2 hm2 => hwf e2 (by simp [hm2]))]
    · rw [Ply.mkElemReader_ascii e hne (hwf e (by simp))]

/-- Claim C8: with the `ascii` format tag, header parsing succeeds, but any
payload decode of a document containing an element with at least one
(well-formed) property fails with `NotImplementedError` — for every payload,
so before any payload byte is interpreted, and no data is returned. -/
theorem claim_C8_ascii_unsupported :
    (∀ (h : Ply.PlyHeader) (data : List Byte),
        h.file_format = "ascii" →
        (∃ e ∈ h.elements, e.props ≠ []) →
        (∀ e ∈ h.elements, ∀ p ∈ e.props,
          p.dtype ≠ [] ∧ (p.dtype.headD "" = "list" → 2 < p.dtype.length)) →
        Ply.readData h data = .error "NotImplementedError")
    ∧ Ply.readHeader
        ["ply\n", "format ascii 1.0\n", "element vertex 1\n", "property float x\n",
         "end_header\n"]
        = some (.ok ⟨"ascii", 1, [⟨"vertex", 1, [⟨"x", ["float"]⟩]⟩]⟩) := by
  refine ⟨?_, rfl⟩
  intro h data hff hex hwf
  unfold Ply.readData Ply.readDoc
  rw [hff, Ply.mapExcept_elems_ascii h.elements hex hwf]
  rfl

/-- Witness for C8 at a concrete ascii document with one float property. -/
theorem claim_C8_ascii_unsupported_witness :
    Ply.readData ⟨"ascii", 1, [⟨"vertex", 1, [⟨"x", ["float"]⟩]⟩]⟩ [3, 1, 4]
      = .error "NotImplementedError" :=
  claim_C8_ascii_unsupported.1 ⟨"ascii", 1, [⟨"vertex", 1, [⟨"x", ["float"]⟩]⟩]⟩ [3, 1, 4]
    rfl ⟨⟨"vertex", 1, [⟨"x", ["float"]⟩]⟩, by decide, by decide⟩ (by decide)

/-- The `tr` dictionaries of the two source files are the same dictionary. -/
theorem tr_eq : Ply2coll.tr = Ply.tr := rfl

/-- The binary reader constructors of the two source files are textually
identical, hence definitionally equal. -/
theorem mkBinaryReader_eq : Ply2coll.mkBinaryReader = Ply.mkBinaryReader := rfl

/-- The binary list-reader constructors of the two source files are textually
identical, hence definitionally equal. -/
theorem mkBinaryListReader_eq : Ply2coll.mkBinaryListReader = Ply.mkBinaryListReader := rfl

/-- `src/ply.py`'s ascii/invalid branch never yields a reader. -/
theorem ply_asciiBranch_none (dtype : List String) (ff0 : String) :
    exceptOk (Ply.asciiBranch dtype ff0) = none := by
  unfold Ply.asciiBranch
  repeat' split
  all_goals rfl

/-- `src/ply2coll.py`'s ascii/invalid branch never yields a reader. -/
theorem coll_asciiBranch_none (ff0 : String) :
    exceptOk (Ply2coll.asciiBranch ff0) = none := by
  unfold Ply2coll.asciiBranch
  split
  all_goals rfl

/-- A format specifier that does not start with `binary` sends `src/ply.py`
into its ascii/invalid branch, yielding no reader. -/
theorem ply_nonbinary_none (dtype : List String) (ff : String)
    (hnb : (splitUnderscore ff).headD "" ≠ "binary") :
    exceptOk (Ply.makeReader dtype ff) = none := by
  unfold Ply.makeReader
  simp only []
  rw [if_neg hnb]
  exact ply_asciiBranch_none dtype _

/-- A format specifier that does not start with `binary` sends
`src/ply2coll.py` into its ascii/invalid branch, yielding no reader. -/
theorem coll_nonbinary_none (dtype : List String) (ff : String)
    (hnb : (splitUnderscore ff).headD "" ≠ "binary") :
    exceptOk (Ply2coll.makeReader dtype ff) = none := by
  unfold Ply2coll.makeReader
  simp only []
  rw [if_neg hnb]
  exact coll_asciiBranch_none _

/-- The two `make_reader` copies either return literally the same result or
both raise. -/
theorem makeReader_cases (dtype : List String) (ff : String) :
    Ply.makeReader dtype ff = Ply2coll.makeReader dtype ff
    ∨ (exceptOk (Ply.makeReader dtype ff) = none
        ∧ exceptOk (Ply2coll.makeReader dtype ff) = none) := by
  by_cases hb : (splitUnderscore ff).headD "" = "binary"
  case neg =>
    exact .inr ⟨ply_nonbinary_none dtype ff hb, coll_nonbinary_none dtype ff hb⟩
  case pos =>
    unfold Ply.makeReader Ply2coll.makeReader
    simp only []
    rw [if_pos hb, if_pos hb]
    cases hg : (splitUnderscore ff).get? 1 with
    | none => exact .inl rfl
    | some e1 =>
      dsimp only
      by_cases he : e1 = "little" ∨ e1 = "big"
      case neg =>
        rw [if_neg he, if_neg he]
        exact .inr ⟨ply_asciiBranch_none dtype _, coll_asciiBranch_none _⟩
      case pos =>
        rw [if_pos he, if_pos he]
        cases hg0 : dtype.get? 0 with
        | none => exact .inl rfl
        | some t0 =>
          dsimp only
          by_cases ht : t0 = "list"
          · rw [if_pos ht, if_pos ht]
            cases hg1 : dtype.get? 1 with
            | none => cases hg2 : dtype.get? 2 <;> exact .inl rfl
            | some st =>
              cases hg2 : dtype.get? 2 with
              | none => exact .inl rfl
              | some it => exact .inl rfl
          · rw [if_neg ht, if_neg ht]
            exact .inl rfl

/-- Claim C9: the two copies of the reader in `src/ply.py` and
`src/ply2coll.py` are behaviorally equivalent on the supported surface: for
every property dtype, format specifier, buffer and offset the constructed
readers return the same (value, new-offset) result, one succeeds exactly when
the other does, and both raise on the ascii path as well as on a format
specifier that is neither binary nor ascii. -/
theorem claim_C9_two_copies_equivalent :
    ∀ (dtype : List String) (file_format : String) (data : List Byte) (off : Nat),
      ((exceptOk (Ply.makeReader dtype file_format)).map (fun r => r data off)
        = (exceptOk (Ply2coll.makeReader dtype file_format)).map (fun r => r data off))
      ∧ ((exceptOk (Ply.makeReader dtype file_format)).isSome
          ↔ (exceptOk (Ply2coll.makeReader dtype file_format)).isSome)
      ∧ ((splitUnderscore file_format).headD "" = "ascii" →
          exceptOk (Ply.makeReader dtype file_format) = none
          ∧ exceptOk (Ply2coll.makeReader dtype file_format) = none)
      ∧ ((splitUnderscore file_format).headD "" ≠ "binary" →
         (splitUnderscore file_format).headD "" ≠ "ascii" →
          exceptOk (Ply.makeReader dtype file_format) = none
          ∧ exceptOk (Ply2coll.makeReader dtype file_format) = none) := by
  intro dtype ff data off
  have hmain := makeReader_cases dtype ff
  refine ⟨?_, ?_, ?_, ?_⟩
  · rcases hmain with he | ⟨h1, h2⟩
    · rw [he]
    · rw [h1, h2]
  · rcases hmain with he | ⟨h1, h2⟩
    · rw [he]
    · rw [h1, h2]
  · intro ha
    have hnb : (splitUnderscore ff).headD "" ≠ "binary" := by rw [ha]; decide
    exact ⟨ply_nonbinary_none dtype ff hnb, coll_nonbinary_none dtype ff hnb⟩
  · intro hnb _
    exact ⟨ply_nonbinary_none dtype ff hnb, coll_nonbinary_none dtype ff hnb⟩

/-- Witness for C9 at the invalid format specifier `bogus`. -/
theorem claim_C9_two_copies_equivalent_witness :
    exceptOk (Ply.makeReader ["int"] "bogus") = none
    ∧ exceptOk (Ply2coll.makeReader ["int"] "bogus") = none :=
  (claim_C9_two_copies_equivalent ["int"] "bogus" [] 0).2.2.2 (by decide) (by decide)

/-- `readline` is the `k`-th line of the file, or `""` at and past end of
file. -/
theorem readline_eq_get? : ∀ (ls : List String) (k : Nat),
    readline ls k = (ls.get? k).getD ""
  | [], k => by simp [readline]
  | _ :: _, 0 => rfl
  | l :: ls, k + 1 => by
    unfold readline
    simp only [List.drop_succ_cons, List.get?_cons_succ]
    exact readline_eq_get? ls k

/-- When no line of the file is the terminator, the header-line scan is the
non-terminating case. -/
theorem Ply.headerLinesScan_eq_none : ∀ (ls : List String),
    (∀ l ∈ ls, stripNl l ≠ "end_header") → Ply.headerLinesScan ls = none
  | [], _ => rfl
  | l :: ls, h => by
    unfold Ply.headerLinesScan
    rw [if_neg (h l (by simp)), Ply.headerLinesScan_eq_none ls (fun l2 h2 => h l2 (by simp [h2]))]

/-- Full characterization of a successful header-line scan: it stops at the
first terminator line, yielding the stripped earlier lines and consuming the
terminator. -/
theorem Ply.headerLinesScan_some : ∀ (ls ys : List String) (k : Nat),
    Ply.headerLinesScan ls = some (ys, k) →
    1 ≤ k ∧ k ≤ ls.length ∧ ys = (ls.take (k - 1)).map stripNl
      ∧ (∃ l, ls.get? (k - 1) = some l ∧ stripNl l = "end_header")
      ∧ ∀ j, j < k - 1 → ∀ l, ls.get? j = some l → stripNl l ≠ "end_header"
  | [], ys, k, h => by simp [Ply.headerLinesScan] at h
  | l :: ls, ys, k, h => by
    unfold Ply.headerLinesScan at h
    split at h
    case isTrue hl =>
      obtain ⟨hy, hk⟩ := Prod.mk.injEq .. ▸ Option.some.injEq .. ▸ h
      subst hk
      refine ⟨by omega, by simp, by simp [← hy], ⟨l, by simp, hl⟩, by omega⟩
    case isFalse hl =>
      split at h
      case h_2 => exact absurd h (by simp)
      case h_1 ys1 k1 heq =>
        obtain ⟨hy, hk⟩ := Prod.mk.injEq .. ▸ Option.some.injEq .. ▸ h
        subst hk
        obtain ⟨h1, h2, h3, ⟨lt, hget, hterm⟩, hpre⟩ := Ply.headerLinesScan_some ls ys1 k1 heq
        have hk1 : k1 + 1 - 1 = k1 := by omega
        refine ⟨by omega, by simp; omega, ?_, ?_, ?_⟩
        · rw [hk1]
          have htk : (l :: ls).take k1 = l :: ls.take (k1 - 1) := by
            have hsc : k1 = (k1 - 1) + 1 := by omega
            conv_lhs => rw [hsc, List.take_succ_cons]
          rw [htk]
          simp only [List.map_cons]
          rw [← hy, h3]
        · refine ⟨lt, ?_, hterm⟩
          rw [hk1]
          have : k1 = (k1 - 1) + 1 := by omega
          rw [this, List.get?_cons_succ]
          exact hget
        · intro j hj l2 hget2
          rw [hk1] at hj
          cases j with
          | zero =>
            simp only [List.get?_cons_zero] at hget2
            obtain rfl := Option.some.inj hget2
            exact hl
          | succ j1 =>
            simp only [List.get?_cons_succ] at hget2
            exact hpre j1 (by omega) l2 hget2

/-- Claim C10: the header-line loop terminates exactly when the input stream
contains a line whose content with its final character removed is
`end_header`; on such inputs it yields every earlier stripped line and
consumes the terminator; with no such line the loop never terminates —
past end of file each `readline` yields `""` (which never matches) forever
instead of raising an error. -/
theorem claim_C10_header_lines_termination :
    ∀ (ls : List String),
      ((∃ k, stripNl (readline ls k) = "end_header")
        ↔ ∃ l ∈ ls, stripNl l = "end_header")
      ∧ ((∀ l ∈ ls, stripNl l ≠ "end_header") →
          Ply.headerLinesScan ls = none
          ∧ ∀ k, ls.length ≤ k → readline ls k = "")
      ∧ (∀ (ys : List String) (k : Nat), Ply.headerLinesScan ls = some (ys, k) →
          1 ≤ k ∧ k ≤ ls.length ∧ ys = (ls.take (k - 1)).map stripNl
            ∧ (∃ l, ls.get? (k - 1) = some l ∧ stripNl l = "end_header")
            ∧ ∀ j, j < k - 1 → ∀ l, ls.get? j = some l → stripNl l ≠ "end_header") := by
  intro ls
  refine ⟨⟨?_, ?_⟩, ?_, ?_⟩
  · rintro ⟨k, hk⟩
    rw [readline_eq_get?] at hk
    cases hke : ls.get? k with
    | none => rw [hke] at hk; exact absurd hk (by decide)
    | some l =>
      rw [hke] at hk
      exact ⟨l, List.get?_mem hke, hk⟩
  · rintro ⟨l, hmem, hl⟩
    obtain ⟨k, hk⟩ := List.mem_iff_get?.mp hmem
    exact ⟨k, by rw [readline_eq_get?, hk]; exact hl⟩
  · intro hno
    refine ⟨Ply.headerLinesScan_eq_none ls hno, ?_⟩
    intro k hk
    rw [readline_eq_get?, List.get?_eq_none.mpr hk]
    rfl
  · intro ys k h
    exact Ply.headerLinesScan_some ls ys k h

/-- Witness for C10: a two-line header whose second line is the terminator
yields the single stripped comment line. -/
theorem claim_C10_header_lines_termination_witness :
    (["comment a"] : List String)
      = ((["comment a\n", "end_header\n"] : List String).take (2 - 1)).map stripNl :=
  ((claim_C10_header_lines_termination ["comment a\n", "end_header\n"]).2.2
    ["comment a"] 2 rfl).2.2.1

end PlyModel
